import Mathlib

/-!
Verification development for the meme-tunnel-streamer repository.

The Go sources are shallowly embedded below. Time is modelled as a `Nat`
count of seconds; `time.Since x` at instant `now` becomes `now - x`
(truncated subtraction — in every real trace `x ≤ now`, since `x` was
produced by an earlier `time.Now()`). The upstream HTTP world and the
random-number generator are passed in explicitly as parameters, so every
function is a pure state transformer that mirrors the source line by line.
-/

/-- `Meme` from `internal/memeservice/meme_service.go` (also `main.go`):
`Title string`, `URL string`. -/
structure Meme where
  title : String
  url : String
deriving DecidableEq, Repr

/-- `Service` (named `MemeService` in `main.go`): `memes []Meme`,
`lastFetch time.Time`.  The mutex only serializes access and has no
sequential semantics, so it is not part of the state. -/
structure Service where
  memes : List Meme
  lastFetch : Nat
deriving DecidableEq, Repr

/-- `NewService`: empty meme list; the zero `time.Time` becomes instant `0`. -/
def NewService : Service :=
  { memes := [], lastFetch := 0 }

/-- Throttle interval: `5 * time.Minute`, in seconds. -/
def fiveMinutes : Nat := 300

/-- The outcome of the external HTTP world for one upstream attempt, one
constructor per failure exit of `FetchMemes`: request construction error,
`client.Do` error (network/timeout), body read error, JSON parse error, or
a successful parse yielding the `child.Data` meme list (the loop over
`redditResp.Data.Children` copies exactly those records, in order). -/
inductive Upstream where
  | reqErr (msg : String)
  | httpErr (msg : String)
  | readErr (msg : String)
  | parseErr (msg : String)
  | ok (children : List Meme)
deriving DecidableEq, Repr

/-- `true` on the four failure constructors. -/
def Upstream.isErr : Upstream → Bool
  | .reqErr _ => true
  | .httpErr _ => true
  | .readErr _ => true
  | .parseErr _ => true
  | .ok _ => false

/-- Result record of one `FetchMemes` call: the post-state, the returned
`error` (`Except.ok ()` models a `nil` error), and whether an upstream HTTP
request was actually performed (`client.Do` reached). -/
structure FetchOut where
  state : Service
  result : Except String Unit
  upstreamCalled : Bool
deriving Repr

/-- `FetchMemes` from `meme_service.go` lines 43–86.  If
`time.Since(ms.lastFetch) < 5*time.Minute` it returns `nil` at once.
Otherwise each failure exit returns the corresponding `fmt.Errorf` message
and leaves the state untouched; on success `ms.memes` is wholesale replaced
by the parsed children and `ms.lastFetch` set to `now`. -/
def FetchMemes (ms : Service) (now : Nat) (world : Upstream) : FetchOut :=
  if now - ms.lastFetch < fiveMinutes then
    { state := ms, result := .ok (), upstreamCalled := false }
  else
    match world with
    | .reqErr e =>
        { state := ms, result := .error ("failed to create request: " ++ e),
          upstreamCalled := false }
    | .httpErr e =>
        { state := ms, result := .error ("failed to fetch memes: " ++ e),
          upstreamCalled := true }
    | .readErr e =>
        { state := ms, result := .error ("failed to read response body: " ++ e),
          upstreamCalled := true }
    | .parseErr e =>
        { state := ms, result := .error ("failed to parse JSON: " ++ e),
          upstreamCalled := true }
    | .ok children =>
        { state := { memes := children, lastFetch := now }, result := .ok (),
          upstreamCalled := true }

/-- The `fmt.Errorf` format head used by the failure exit that `world`
selects (spec-side accessor used to state that errors are descriptive). -/
def errTag : Upstream → String
  | .reqErr _ => "failed to create request: "
  | .httpErr _ => "failed to fetch memes: "
  | .readErr _ => "failed to read response body: "
  | .parseErr _ => "failed to parse JSON: "
  | .ok _ => ""

/-- The wrapped error detail of a failing `Upstream` outcome. -/
def errDetail : Upstream → String
  | .reqErr e => e
  | .httpErr e => e
  | .readErr e => e
  | .parseErr e => e
  | .ok _ => ""

/-- `GetRandomMeme` from `meme_service.go` lines 89–98.  `rand.Intn n`
(uniform on `[0, n)`) is modelled as `r % n` for an externally supplied
entropy value `r`. -/
def GetRandomMeme (ms : Service) (r : Nat) : Meme :=
  if h : ms.memes.length = 0 then
    { title := "No memes available", url := "" }
  else
    ms.memes.get ⟨r % ms.memes.length, Nat.mod_lt _ (Nat.pos_of_ne_zero h)⟩

/-!
Connection manager (`internal/connectionmanager`, duplicated in `main.go`).

Go's `map[string]*ConnectionLog` stores *pointers* to log records.  To keep
that aliasing observable we model the pointer store as an explicit heap: a
`List ConnectionLog` addressed by index, with the map itself an association
list from id to heap address.  `time.Now()` becomes an explicit `now`
parameter.  Go map iteration order is unspecified; the association list
fixes one admissible order (insertion order, in-place overwrite), which
only determinizes tie-breaking in the eviction scan.
-/

/-- `ConnectionLog`: id, creation timestamp, remote address, request
headers (`http.Header` is a map from name to list of values), events. -/
structure ConnectionLog where
  id : String
  timestamp : Nat
  remoteAddr : String
  requestHeaders : List (String × List String)
  events : List String
deriving DecidableEq, Repr

/-- The inbound `*http.Request` data that `AddConnection` reads. -/
structure Request where
  remoteAddr : String
  headers : List (String × List String)
deriving DecidableEq, Repr

/-- `Manager` (named `ConnectionManager` in `main.go`): the heap of log
records plus `connections map[string]*ConnectionLog` and
`maxConnections int`. -/
structure Manager where
  heap : List ConnectionLog
  connections : List (String × Nat)
  maxConnections : Nat
deriving DecidableEq, Repr

/-- `NewManager` / `NewConnectionManager`: empty map. -/
def NewManager (maxConnections : Nat) : Manager :=
  { heap := [], connections := [], maxConnections := maxConnections }

/-- Dereference a heap address (Go would never fault here; the default is
unreachable in well-formed states). -/
def refLog (heap : List ConnectionLog) (r : Nat) : ConnectionLog :=
  heap.getD r { id := "", timestamp := 0, remoteAddr := "", requestHeaders := [], events := [] }

/-- Go map assignment `m[k] = v`: overwrite in place if the key exists,
otherwise add the binding. -/
def insertAssoc (k : String) (v : Nat) : List (String × Nat) → List (String × Nat)
  | [] => [(k, v)]
  | p :: rest => if p.1 = k then (k, v) :: rest else p :: insertAssoc k v rest

/-- Go map lookup `m[k]`. -/
def lookupAssoc (k : String) : List (String × Nat) → Option Nat
  | [] => none
  | p :: rest => if p.1 = k then some p.2 else lookupAssoc k rest

/-- One iteration of the eviction scan: keep the entry seen so far with
the strictly smallest `Timestamp`; `none` plays the role of the initial
`oldestKey == ""` sentinel. -/
def oldestStep (heap : List ConnectionLog) (acc : Option (String × Nat))
    (p : String × Nat) : Option (String × Nat) :=
  match acc with
  | none => some p
  | some q =>
      if (refLog heap p.2).timestamp < (refLog heap q.2).timestamp then some p
      else some q

/-- The eviction scan of `AddConnection` (lines 56–65 of the manager file):
walk the map tracking the entry with the strictly smallest `Timestamp`. -/
def oldestEntry (heap : List ConnectionLog) (l : List (String × Nat)) :
    Option (String × Nat) :=
  l.foldl (oldestStep heap) none

/-- The `if len(cm.connections) > cm.maxConnections { ... delete ... }`
trim at the end of `AddConnection`: remove the entry found by the scan. -/
def trimStep (cm : Manager) : Manager :=
  if cm.maxConnections < cm.connections.length then
    match oldestEntry cm.heap cm.connections with
    | some q => { cm with connections := cm.connections.eraseP (fun p => p.1 == q.1) }
    | none => cm
  else cm

/-- The id `AddConnection` generates: `fmt.Sprintf("conn_%d", len+1)`. -/
def genConnID (cm : Manager) : String :=
  "conn_" ++ toString (cm.connections.length + 1)

/-- The insertion half of `AddConnection` (lines 40–53): allocate a fresh
`ConnectionLog` with empty events and store its pointer under the
generated id. -/
def insertStage (cm : Manager) (r : Request) (now : Nat) : Manager :=
  let connLog : ConnectionLog :=
    { id := genConnID cm, timestamp := now, remoteAddr := r.remoteAddr,
      requestHeaders := r.headers, events := [] }
  { cm with heap := cm.heap ++ [connLog],
            connections := insertAssoc (genConnID cm) cm.heap.length cm.connections }

/-- `AddConnection` (manager file lines 36–71): generate
`conn_{len(connections)+1}`, insert the new record, trim if over capacity,
return the id. -/
def AddConnection (cm : Manager) (r : Request) (now : Nat) : String × Manager :=
  (genConnID cm, trimStep (insertStage cm r now))

/-- `AddConnectionEvent` (lines 74–81): if the id is present, append the
event to the pointed-to record in place; otherwise do nothing. -/
def AddConnectionEvent (cm : Manager) (connID event : String) : Manager :=
  match lookupAssoc connID cm.connections with
  | some r =>
      { cm with heap :=
          cm.heap.set r { refLog cm.heap r with events := (refLog cm.heap r).events ++ [event] } }
  | none => cm

/-- `GetConnectionLogs` (lines 84–93): a fresh slice holding the *pointers*
of all current records — modelled as the list of heap addresses. -/
def GetConnectionLogs (cm : Manager) : List Nat :=
  cm.connections.map (fun p => p.2)

/-- What a holder of a `GetConnectionLogs` result observes when reading it
while the heap is in state `heap`: each pointer dereferenced. -/
def snapshotView (heap : List ConnectionLog) (refs : List Nat) : List ConnectionLog :=
  refs.map (refLog heap)

/-- One `AddConnection` call's inputs: the request and the `time.Now()`
instant. -/
structure AddInput where
  req : Request
  now : Nat
deriving DecidableEq, Repr

/-- A whole history of `AddConnection` calls, applied in order. -/
def runAdds (cm : Manager) (l : List AddInput) : Manager :=
  l.foldl (fun m i => (AddConnection m i.req i.now).2) cm

/-!
SSE message formatting (`handleMemeSSE` in the server file, `MemeSSEHandler`
in `main.go`).  The emitted bytes come from
`fmt.Sprintf("data: {\"title\": %q, \"url\": %q, \"connID\": %q}\n\n", ...)`.
`%q` on a string is `strconv.Quote`.  We embed its behaviour on ASCII
(code points below `0x80`) exactly — Go escapes `"` and `\`, prints
printable ASCII (`0x20`–`0x7e`) verbatim, uses the named escapes
`\a \b \t \n \v \f \r` for those control bytes, and `\xNN` (lower-case hex)
for the remaining non-printable bytes.  Non-ASCII runes (which Go prints
verbatim when `unicode.IsPrint` holds, else as `\uNNNN`) are outside this
model, so the formatting theorems quantify over ASCII strings only.
-/

/-- Lower-case hex digit, as used by `strconv`. -/
def hexDigit (n : Nat) : Char :=
  if n < 10 then Char.ofNat (48 + n) else Char.ofNat (87 + n)

/-- `strconv.Quote`'s encoding of one ASCII character. -/
def goQuoteChar (c : Char) : List Char :=
  if c = '"' ∨ c = '\\' then ['\\', c]
  else if 0x20 ≤ c.toNat ∧ c.toNat ≤ 0x7e then [c]
  else if c.toNat = 7 then ['\\', 'a']
  else if c.toNat = 8 then ['\\', 'b']
  else if c.toNat = 9 then ['\\', 't']
  else if c.toNat = 10 then ['\\', 'n']
  else if c.toNat = 11 then ['\\', 'v']
  else if c.toNat = 12 then ['\\', 'f']
  else if c.toNat = 13 then ['\\', 'r']
  else ['\\', 'x', hexDigit (c.toNat / 16 % 16), hexDigit (c.toNat % 16)]

/-- `strconv.Quote` (the `%q` verb) on an ASCII string, as a character
list: surrounding double quotes around the per-character encodings. -/
def goQuote (s : List Char) : List Char :=
  '"' :: s.flatMap goQuoteChar ++ ['"']

/-- The exact byte sequence `handleMemeSSE` writes for one item: the
`fmt.Sprintf` format with the three `%q` fields filled in. -/
def buildSSEMessage (m : Meme) (connID : String) : List Char :=
  "data: \x7b\"title\": ".data ++ goQuote m.title.data ++
    ", \"url\": ".data ++ goQuote m.url.data ++
    ", \"connID\": ".data ++ goQuote connID.data ++
    "\x7d\n\n".data

/-- Value of one hex digit per RFC 8259 (both cases accepted). -/
def hexVal (c : Char) : Option Nat :=
  if 48 ≤ c.toNat ∧ c.toNat ≤ 57 then some (c.toNat - 48)
  else if 97 ≤ c.toNat ∧ c.toNat ≤ 102 then some (c.toNat - 87)
  else if 65 ≤ c.toNat ∧ c.toNat ≤ 70 then some (c.toNat - 55)
  else none

/-- Decode one RFC 8259 escape sequence (the part after the backslash):
exactly `\" \\ \/ \b \f \n \r \t \uXXXX` are allowed, the last only
for non-surrogate code points.  Returns the decoded character and the
remaining input; `none` on any other escape (such as Go's `\a`, `\v` or
`\xNN`). -/
def jsonEscDecode : List Char → Option (Char × List Char)
  | [] => none
  | e :: rest =>
    if e = '"' then some ('"', rest)
    else if e = '\\' then some ('\\', rest)
    else if e = '/' then some ('/', rest)
    else if e = 'b' then some (Char.ofNat 8, rest)
    else if e = 'f' then some (Char.ofNat 12, rest)
    else if e = 'n' then some (Char.ofNat 10, rest)
    else if e = 'r' then some (Char.ofNat 13, rest)
    else if e = 't' then some (Char.ofNat 9, rest)
    else if e = 'u' then
      match rest with
      | h1 :: h2 :: h3 :: h4 :: rest2 =>
        match hexVal h1, hexVal h2, hexVal h3, hexVal h4 with
        | some a, some b, some c, some d =>
          let n := ((a * 16 + b) * 16 + c) * 16 + d
          if n < 0xd800 ∨ 0xdfff < n then some (Char.ofNat n, rest2) else none
        | _, _, _, _ => none
      | _ => none
    else none

/-- RFC 8259 string-body decoder: consumes characters up to a closing
quote that must end the input; unescaped control characters and any
escape `jsonEscDecode` rejects are malformed.  The `fuel` argument only
bounds the recursion; every step consumes at least one input character,
so any `fuel` at least the input length yields the decoder's value. -/
def jsonUnquoteGo : Nat → List Char → Option (List Char)
  | 0, _ => none
  | _ + 1, [] => none
  | fuel + 1, c :: rest =>
    if c = '"' then (if rest = [] then some [] else none)
    else if c = '\\' then
      match jsonEscDecode rest with
      | some (d, rest2) => (jsonUnquoteGo fuel rest2).map (fun t => d :: t)
      | none => none
    else if c.toNat < 0x20 then none
    else (jsonUnquoteGo fuel rest).map (fun t => c :: t)

/-- Decode a complete JSON string token: an opening quote, then the body.
`some s` means the input is a valid JSON string encoding of `s`. -/
def jsonUnquote (s : List Char) : Option (List Char) :=
  match s with
  | c :: rest => if c = '"' then jsonUnquoteGo rest.length rest else none
  | [] => none

/-- The character class on which Go quoting and JSON escaping agree: the
printable ASCII range plus the control characters whose Go named escapes
(`\b \t \n \f \r`) are also JSON escapes.  `BEL (7)` and `VT (11)` are
excluded — Go writes `\a` / `\v`, which JSON rejects — as are all bytes Go
would write as `\xNN`. -/
def goJsonSafe (c : Char) : Bool :=
  (0x20 ≤ c.toNat && c.toNat ≤ 0x7e) ||
    (c.toNat = 8 || c.toNat = 9 || c.toNat = 10 || c.toNat = 12 || c.toNat = 13)

/-!
Heap well-formedness and concrete traces used by the theorems below.
-/

/-- Every stored pointer is a valid heap address.  Holds for every state
reachable from `NewManager` (proved below) and mirrors the fact that Go
map values are always live pointers. -/
def WF (cm : Manager) : Prop :=
  ∀ p ∈ cm.connections, p.2 < cm.heap.length

/-- Concrete inbound requests used in the executable scenarios. -/
def regA : Request := { remoteAddr := "A", headers := [] }

def regB : Request := { remoteAddr := "B", headers := [("User-Agent", ["x"])] }

def regC : Request := { remoteAddr := "C", headers := [("Accept", ["y"])] }

/-- Capacity-1 registry after registering A at `t = 0` and B at `t = 1`
(the first registration has been evicted by the second). -/
def cap1After2 : Manager :=
  (AddConnection ((AddConnection (NewManager 1) regA 0).2) regB 1).2

/-- The same registry after the session `conn_2` logs one event. -/
def cap1Logged : Manager :=
  AddConnectionEvent cap1After2 "conn_2" "hello"

/-- The capacity-2 eviction scenario of the spec: A at 0, B at 1, C at 2. -/
def scenarioHistory : List AddInput :=
  [{ req := regA, now := 0 }, { req := regB, now := 1 }, { req := regC, now := 2 }]

/-- An over-capacity intermediate state (post-insert, pre-trim) used to
exercise the eviction-minimality statement at a concrete input. -/
def overState : Manager :=
  insertStage ((AddConnection (NewManager 1) regA 0).2) regB 1

/-- Registry holding one record, used for the snapshot experiments. -/
def snapBase : Manager := (AddConnection (NewManager 50) regA 0).2

/-- A snapshot (list of record pointers) taken on `snapBase`. -/
def snapRefs : List Nat := GetConnectionLogs snapBase

/-- A refresh attempt that fails upstream, 10000 seconds after start. -/
def failedFetch : FetchOut :=
  FetchMemes NewService 10000 (.httpErr "connection refused")

/-- A second refresh 60 seconds after the failed attempt, with the
upstream now healthy. -/
def followUp : FetchOut :=
  FetchMemes failedFetch.state 10060 (.ok [{ title := "a", url := "b" }])

/-!
Theorems.
-/

/-- **C2, counterexample.**  The claim says the throttle applies within
five minutes of a prior attempt *whether it succeeded or failed*.  On the
code, a failed attempt leaves `lastFetch` untouched, so a refresh 60
seconds after a failed attempt contacts the upstream again and replaces
`items`. -/
theorem C2_refresh_after_failed_attempt_not_throttled :
    failedFetch.result = Except.error "failed to fetch memes: connection refused" ∧
    10060 - 10000 < fiveMinutes ∧
    followUp.upstreamCalled = true ∧
    followUp.state.memes ≠ failedFetch.state.memes := by
  refine ⟨rfl, by decide, rfl, by decide⟩

/-- **C2, amended.**  Every `FetchMemes` call within five minutes of
`lastFetch` — the instant of the last *successful* refresh (process start
counts as instant 0) — returns success immediately, performs no upstream
request and leaves the whole state unchanged.  Failed attempts do not
start a throttle window. -/
theorem C2_throttled_refresh_is_noop (ms : Service) (now : Nat) (world : Upstream)
    (h : now - ms.lastFetch < fiveMinutes) :
    FetchMemes ms now world =
      { state := ms, result := .ok (), upstreamCalled := false } := by
  unfold FetchMemes
  rw [if_pos h]

/-- **C2, witness.** -/
theorem C2_throttled_refresh_is_noop_witness :
    (100 : Nat) - NewService.lastFetch < fiveMinutes ∧
    FetchMemes NewService 100 (.httpErr "boom") =
      { state := NewService, result := .ok (), upstreamCalled := false } :=
  ⟨by decide, C2_throttled_refresh_is_noop NewService 100 (.httpErr "boom") (by decide)⟩

/-- **C3.**  Every failing refresh — request construction, network or
timeout, body read, or JSON parse failure, once the throttle has elapsed —
returns the descriptive `fmt.Errorf` message of its exit and leaves
`memes` and `lastFetch` exactly as they were. -/
theorem C3_failed_refresh_atomic (ms : Service) (now : Nat) (world : Upstream)
    (hw : world.isErr = true) (ht : fiveMinutes ≤ now - ms.lastFetch) :
    (FetchMemes ms now world).state = ms ∧
    (FetchMemes ms now world).result =
      .error (errTag world ++ errDetail world) ∧
    errTag world ≠ "" := by
  have hlt : ¬ now - ms.lastFetch < fiveMinutes := Nat.not_lt.mpr ht
  unfold FetchMemes
  rw [if_neg hlt]
  cases world
  case ok _ => simp [Upstream.isErr] at hw
  all_goals exact ⟨rfl, rfl, by simp only [errTag]; decide⟩

/-- **C3, witness.** -/
theorem C3_failed_refresh_atomic_witness :
    (FetchMemes NewService 10000 (.parseErr "bad json")).state = NewService ∧
    (FetchMemes NewService 10000 (.parseErr "bad json")).result =
      .error (errTag (.parseErr "bad json") ++ errDetail (.parseErr "bad json")) ∧
    errTag (.parseErr "bad json") ≠ "" :=
  C3_failed_refresh_atomic NewService 10000 (.parseErr "bad json") (by decide) (by decide)

/-- **C4.**  On an empty cache `GetRandomMeme` returns exactly the
sentinel item, for every entropy value. -/
theorem C4_empty_cache_sentinel (ms : Service) (r : Nat) (h : ms.memes = []) :
    GetRandomMeme ms r = { title := "No memes available", url := "" } := by
  unfold GetRandomMeme
  rw [dif_pos (by simp [h])]

/-- **C4, witness.** -/
theorem C4_empty_cache_sentinel_witness :
    NewService.memes = [] ∧
    GetRandomMeme NewService 7 = { title := "No memes available", url := "" } :=
  ⟨rfl, C4_empty_cache_sentinel NewService 7 rfl⟩

/-- **C5.**  After a successful refresh that parsed the non-empty list
`l`, the cache holds exactly `l` and every `GetRandomMeme` call returns a
member of `l`, for every entropy value. -/
theorem C5_pick_member_of_last_fetch (ms : Service) (now : Nat) (l : List Meme)
    (r : Nat) (hl : l ≠ []) (ht : fiveMinutes ≤ now - ms.lastFetch) :
    (FetchMemes ms now (.ok l)).state.memes = l ∧
    GetRandomMeme (FetchMemes ms now (.ok l)).state r ∈ l := by
  have hlt : ¬ now - ms.lastFetch < fiveMinutes := Nat.not_lt.mpr ht
  have hstate : (FetchMemes ms now (.ok l)).state = { memes := l, lastFetch := now } := by
    simp [FetchMemes, hlt]
  refine ⟨by rw [hstate], ?_⟩
  rw [hstate]
  unfold GetRandomMeme
  have hlen : ¬ ({ memes := l, lastFetch := now } : Service).memes.length = 0 :=
    fun h0 => hl (List.length_eq_zero.mp h0)
  rw [dif_neg hlen]
  exact List.get_mem _ _ _

/-- **C5, witness.** -/
theorem C5_pick_member_of_last_fetch_witness :
    ([{ title := "a", url := "b" }, { title := "c", url := "d" }] : List Meme) ≠ [] ∧
    fiveMinutes ≤ 10000 - NewService.lastFetch ∧
    ((FetchMemes NewService 10000
        (.ok [{ title := "a", url := "b" }, { title := "c", url := "d" }])).state.memes =
      [{ title := "a", url := "b" }, { title := "c", url := "d" }] ∧
    GetRandomMeme (FetchMemes NewService 10000
        (.ok [{ title := "a", url := "b" }, { title := "c", url := "d" }])).state 7 ∈
      ([{ title := "a", url := "b" }, { title := "c", url := "d" }] : List Meme)) :=
  ⟨by decide, by decide,
    C5_pick_member_of_last_fetch NewService 10000
      [{ title := "a", url := "b" }, { title := "c", url := "d" }] 7
      (by decide) (by decide)⟩

/-- **C1 (code bug), evaluation at the failing input.**  With capacity 1,
after registering A at `t = 0` and B at `t = 1` (which evicted A), the
registry currently holds a record whose id is `"conn_2"`; yet the next
`AddConnection` call — `len(connections) + 1 = 2` — returns `"conn_2"`
again, an id that is already the id of an existing, non-evicted record. -/
theorem C1_generated_id_collides_with_live_record :
    lookupAssoc "conn_2" cap1Logged.connections = some 1 ∧
    (refLog cap1Logged.heap 1).id = "conn_2" ∧
    (AddConnection cap1Logged regC 2).1 = "conn_2" := by
  decide

/-- **C7.**  `AddConnectionEvent` on an id that is absent from the
registry (evicted or never existed) returns the state unchanged, for every
state and message. -/
theorem C7_append_event_unknown_id_noop (cm : Manager) (connID event : String)
    (h : lookupAssoc connID cm.connections = none) :
    AddConnectionEvent cm connID event = cm := by
  unfold AddConnectionEvent
  rw [h]

/-- **C7, witness.** -/
theorem C7_append_event_unknown_id_noop_witness :
    lookupAssoc "conn_1" cap1After2.connections = none ∧
    AddConnectionEvent cap1After2 "conn_1" "late event" = cap1After2 :=
  ⟨by decide, C7_append_event_unknown_id_noop cap1After2 "conn_1" "late event" (by decide)⟩

/-- **C10.**  Concrete run exhibiting the implicit claim: capacity 1;
A registered at 0, B at 1 (evicting A), then `conn_2` logs an event.  The
third registration generates `"conn_2"` — the id of a live record — and
the insertion wholesale replaces that record: the registry still maps
`"conn_2"` to a record, but with B's `createdAt = 1`, headers and the
`["hello"]` event log all discarded in favour of C's data and an empty
log; the registry size is unchanged and no record is evicted (the key set
is exactly the key set before the call). -/
theorem C10_id_collision_replaces_record_without_eviction :
    lookupAssoc "conn_1" cap1After2.connections = none ∧
    lookupAssoc "conn_2" cap1Logged.connections = some 1 ∧
    refLog cap1Logged.heap 1 =
      { id := "conn_2", timestamp := 1, remoteAddr := "B",
        requestHeaders := [("User-Agent", ["x"])], events := ["hello"] } ∧
    (AddConnection cap1Logged regC 2).1 = "conn_2" ∧
    lookupAssoc "conn_2" ((AddConnection cap1Logged regC 2).2).connections = some 2 ∧
    refLog ((AddConnection cap1Logged regC 2).2).heap 2 =
      { id := "conn_2", timestamp := 2, remoteAddr := "C",
        requestHeaders := [("Accept", ["y"])], events := [] } ∧
    ((AddConnection cap1Logged regC 2).2).connections.length =
      cap1Logged.connections.length ∧
    ((AddConnection cap1Logged regC 2).2).connections.map (fun p => p.1) =
      cap1Logged.connections.map (fun p => p.1) := by
  decide

/-- **C8, counterexample.**  A snapshot is not a point-in-time copy: the
returned slice holds pointers to the live records, so an
`AddConnectionEvent` performed *after* `GetConnectionLogs` changes what the
snapshot holder observes (its record's event list gains `"later"`). -/
theorem C8_snapshot_sees_later_append :
    snapshotView snapBase.heap snapRefs ≠
      snapshotView (AddConnectionEvent snapBase "conn_1" "later").heap snapRefs := by
  decide

/-- Seeded eviction scan: the result is the seed or a scanned entry, and
its timestamp is minimal among seed and scanned entries. -/
theorem oldestFold_spec (heap : List ConnectionLog) (l : List (String × Nat)) :
    ∀ q0 : String × Nat,
      ∃ q, l.foldl (oldestStep heap) (some q0) = some q ∧ (q = q0 ∨ q ∈ l) ∧
        (refLog heap q.2).timestamp ≤ (refLog heap q0.2).timestamp ∧
        ∀ p ∈ l, (refLog heap q.2).timestamp ≤ (refLog heap p.2).timestamp := by
  induction l with
  | nil =>
    intro q0
    exact ⟨q0, rfl, Or.inl rfl, Nat.le_refl _, by simp⟩
  | cons p l ih =>
    intro q0
    have hstep : (p :: l).foldl (oldestStep heap) (some q0) =
        l.foldl (oldestStep heap) (oldestStep heap (some q0) p) := rfl
    by_cases hc : (refLog heap p.2).timestamp < (refLog heap q0.2).timestamp
    · have hacc : oldestStep heap (some q0) p = some p := by
        simp [oldestStep, hc]
      obtain ⟨q, hfold, hmem, hle, hall⟩ := ih p
      refine ⟨q, by rw [hstep, hacc, hfold], ?_, Nat.le_trans hle (Nat.le_of_lt hc), ?_⟩
      · rcases hmem with h | h
        · exact Or.inr (by simp [h])
        · exact Or.inr (List.mem_cons_of_mem _ h)
      · intro x hx
        rcases List.mem_cons.mp hx with h | h
        · rw [h]; exact hle
        · exact hall x h
    · have hacc : oldestStep heap (some q0) p = some q0 := by
        simp [oldestStep, hc]
      obtain ⟨q, hfold, hmem, hle, hall⟩ := ih q0
      refine ⟨q, by rw [hstep, hacc, hfold], ?_, hle, ?_⟩
      · rcases hmem with h | h
        · exact Or.inl h
        · exact Or.inr (List.mem_cons_of_mem _ h)
      · intro x hx
        rcases List.mem_cons.mp hx with h | h
        · rw [h]; exact Nat.le_trans hle (Nat.not_lt.mp hc)
        · exact hall x h

/-- On a non-empty map the eviction scan returns an existing entry of
minimal creation time. -/
theorem oldestEntry_spec (heap : List ConnectionLog) (l : List (String × Nat))
    (h : l ≠ []) :
    ∃ q, oldestEntry heap l = some q ∧ q ∈ l ∧
      ∀ p ∈ l, (refLog heap q.2).timestamp ≤ (refLog heap p.2).timestamp := by
  match l, h with
  | p :: l, _ =>
    have hstep : oldestEntry heap (p :: l) = l.foldl (oldestStep heap) (some p) := rfl
    obtain ⟨q, hfold, hmem, hle, hall⟩ := oldestFold_spec heap l p
    refine ⟨q, by rw [hstep, hfold], ?_, ?_⟩
    · rcases hmem with h | h
      · exact by simp [h]
      · exact List.mem_cons_of_mem _ h
    · intro x hx
      rcases List.mem_cons.mp hx with h | h
      · rw [h]; exact hle
      · exact hall x h

/-- Trimming never touches the heap. -/
theorem trimStep_heap (cm : Manager) : (trimStep cm).heap = cm.heap := by
  unfold trimStep
  by_cases h : cm.maxConnections < cm.connections.length
  · rw [if_pos h]
    cases oldestEntry cm.heap cm.connections <;> rfl
  · rw [if_neg h]

/-- Trimming never touches the capacity. -/
theorem trimStep_max (cm : Manager) : (trimStep cm).maxConnections = cm.maxConnections := by
  unfold trimStep
  by_cases h : cm.maxConnections < cm.connections.length
  · rw [if_pos h]
    cases oldestEntry cm.heap cm.connections <;> rfl
  · rw [if_neg h]

/-- Go map assignment grows the map by at most one binding. -/
theorem insertAssoc_length_le (k : String) (v : Nat) :
    ∀ l : List (String × Nat), (insertAssoc k v l).length ≤ l.length + 1 := by
  intro l
  induction l with
  | nil => simp [insertAssoc]
  | cons p rest ih =>
    unfold insertAssoc
    by_cases h : p.1 = k
    · rw [if_pos h]
      simp
    · rw [if_neg h]
      simp only [List.length_cons]
      omega

/-- If the map exceeded capacity by at most one entry, trimming restores
the capacity bound. -/
theorem trimStep_length (cm : Manager)
    (h : cm.connections.length ≤ cm.maxConnections + 1) :
    (trimStep cm).connections.length ≤ cm.maxConnections := by
  unfold trimStep
  by_cases hover : cm.maxConnections < cm.connections.length
  · rw [if_pos hover]
    have hne : cm.connections ≠ [] := by
      intro h0
      rw [h0] at hover
      simp at hover
    obtain ⟨q, hq, hqmem, _⟩ := oldestEntry_spec cm.heap cm.connections hne
    rw [hq]
    have herase : (cm.connections.eraseP (fun p => p.1 == q.1)).length + 1 =
        cm.connections.length :=
      List.length_eraseP_add_one hqmem (by simp)
    show (cm.connections.eraseP (fun p => p.1 == q.1)).length ≤ cm.maxConnections
    omega
  · rw [if_neg hover]
    omega

/-- One registration keeps a within-capacity registry within capacity. -/
theorem addConnection_length (cm : Manager) (r : Request) (now : Nat)
    (h : cm.connections.length ≤ cm.maxConnections) :
    ((AddConnection cm r now).2).connections.length ≤ cm.maxConnections := by
  have hins : (insertStage cm r now).connections.length ≤ cm.connections.length + 1 :=
    insertAssoc_length_le _ _ _
  have hmax : (insertStage cm r now).maxConnections = cm.maxConnections := rfl
  have htrim := trimStep_length (insertStage cm r now) (by omega)
  rw [hmax] at htrim
  exact htrim

/-- Registration never changes the capacity field. -/
theorem addConnection_max (cm : Manager) (r : Request) (now : Nat) :
    ((AddConnection cm r now).2).maxConnections = cm.maxConnections :=
  trimStep_max _

/-- The capacity bound is an invariant of arbitrary registration
histories. -/
theorem runAdds_inv (hist : List AddInput) :
    ∀ cm : Manager, cm.connections.length ≤ cm.maxConnections →
      (runAdds cm hist).connections.length ≤ (runAdds cm hist).maxConnections ∧
      (runAdds cm hist).maxConnections = cm.maxConnections := by
  induction hist with
  | nil => exact fun cm h => ⟨h, rfl⟩
  | cons i hist ih =>
    intro cm h
    have h1 := addConnection_length cm i.req i.now h
    have h2 := addConnection_max cm i.req i.now
    obtain ⟨ha, hb⟩ := ih ((AddConnection cm i.req i.now).2) (by rw [h2]; exact h1)
    refine ⟨ha, ?_⟩
    show (runAdds ((AddConnection cm i.req i.now).2) hist).maxConnections = cm.maxConnections
    rw [hb, h2]

/-- **C6.**  (i) After any history of `AddConnection` calls from a fresh
registry, `|connections| ≤ capacity`.  (ii) Whenever the insertion stage
leaves the registry over capacity, the trim removes an entry that is a
current entry of minimal `createdAt` among all current (post-insert)
records.  (iii) The spec's concrete scenario: capacity 2, A at `t = 0`,
B at `t = 1`, C at `t = 2` leaves exactly records B and C — A is the one
evicted. -/
theorem C6_capacity_bound_and_oldest_first_eviction (max : Nat)
    (hist : List AddInput) (cm : Manager)
    (hover : cm.maxConnections < cm.connections.length) :
    (runAdds (NewManager max) hist).connections.length ≤ max ∧
    (∃ q, oldestEntry cm.heap cm.connections = some q ∧ q ∈ cm.connections ∧
      (∀ p ∈ cm.connections,
        (refLog cm.heap q.2).timestamp ≤ (refLog cm.heap p.2).timestamp) ∧
      trimStep cm =
        { cm with connections := cm.connections.eraseP (fun p => p.1 == q.1) }) ∧
    ((runAdds (NewManager 2) scenarioHistory).connections.map (fun p => p.1) =
        ["conn_2", "conn_3"] ∧
      snapshotView (runAdds (NewManager 2) scenarioHistory).heap
          (GetConnectionLogs (runAdds (NewManager 2) scenarioHistory)) =
        [{ id := "conn_2", timestamp := 1, remoteAddr := "B",
           requestHeaders := [("User-Agent", ["x"])], events := [] },
         { id := "conn_3", timestamp := 2, remoteAddr := "C",
           requestHeaders := [("Accept", ["y"])], events := [] }]) := by
  refine ⟨?_, ?_, by decide⟩
  · have h0 : (NewManager max).connections.length ≤ (NewManager max).maxConnections := by
      simp [NewManager]
    obtain ⟨ha, hb⟩ := runAdds_inv hist (NewManager max) h0
    rw [hb] at ha
    exact ha
  · have hne : cm.connections ≠ [] := by
      intro h0
      rw [h0] at hover
      simp at hover
    obtain ⟨q, hq, hqmem, hmin⟩ := oldestEntry_spec cm.heap cm.connections hne
    refine ⟨q, hq, hqmem, hmin, ?_⟩
    unfold trimStep
    rw [if_pos hover, hq]

/-- **C6, witness.** -/
theorem C6_capacity_bound_and_oldest_first_eviction_witness :
    overState.maxConnections < overState.connections.length ∧
    ((runAdds (NewManager 2) scenarioHistory).connections.length ≤ 2 ∧
    (∃ q, oldestEntry overState.heap overState.connections = some q ∧
      q ∈ overState.connections ∧
      (∀ p ∈ overState.connections,
        (refLog overState.heap q.2).timestamp ≤ (refLog overState.heap p.2).timestamp) ∧
      trimStep overState =
        { overState with
            connections := overState.connections.eraseP (fun p => p.1 == q.1) }) ∧
    ((runAdds (NewManager 2) scenarioHistory).connections.map (fun p => p.1) =
        ["conn_2", "conn_3"] ∧
      snapshotView (runAdds (NewManager 2) scenarioHistory).heap
          (GetConnectionLogs (runAdds (NewManager 2) scenarioHistory)) =
        [{ id := "conn_2", timestamp := 1, remoteAddr := "B",
           requestHeaders := [("User-Agent", ["x"])], events := [] },
         { id := "conn_3", timestamp := 2, remoteAddr := "C",
           requestHeaders := [("Accept", ["y"])], events := [] }])) :=
  ⟨by decide,
    C6_capacity_bound_and_oldest_first_eviction 2 scenarioHistory overState (by decide)⟩

/-- Entries of a Go map after an assignment: the new binding or an old
entry. -/
theorem mem_insertAssoc (k : String) (v : Nat) :
    ∀ (l : List (String × Nat)) (p : String × Nat),
      p ∈ insertAssoc k v l → p = (k, v) ∨ p ∈ l := by
  intro l
  induction l with
  | nil =>
    intro p hp
    simp [insertAssoc] at hp
    exact Or.inl hp
  | cons q rest ih =>
    intro p hp
    unfold insertAssoc at hp
    by_cases h : q.1 = k
    · rw [if_pos h] at hp
      rcases List.mem_cons.mp hp with h1 | h1
      · exact Or.inl h1
      · exact Or.inr (List.mem_cons_of_mem _ h1)
    · rw [if_neg h] at hp
      rcases List.mem_cons.mp hp with h1 | h1
      · exact Or.inr (by simp [h1])
      · rcases ih p h1 with h2 | h2
        · exact Or.inl h2
        · exact Or.inr (List.mem_cons_of_mem _ h2)

/-- The insertion stage preserves pointer validity. -/
theorem wf_insertStage (cm : Manager) (r : Request) (now : Nat) (h : WF cm) :
    WF (insertStage cm r now) := by
  intro p hp
  have hlen : (insertStage cm r now).heap.length = cm.heap.length + 1 := by
    simp [insertStage]
  rcases mem_insertAssoc _ _ _ p hp with rfl | h1
  · rw [hlen]
    exact Nat.lt_succ_self _
  · rw [hlen]
    exact Nat.lt_succ_of_lt (h p h1)

/-- Trimming preserves pointer validity. -/
theorem wf_trimStep (cm : Manager) (h : WF cm) : WF (trimStep cm) := by
  intro p hp
  rw [trimStep_heap]
  apply h
  revert hp
  unfold trimStep
  by_cases hover : cm.maxConnections < cm.connections.length
  · rw [if_pos hover]
    cases oldestEntry cm.heap cm.connections with
    | none => exact id
    | some q => exact fun hp => List.mem_of_mem_eraseP hp
  · rw [if_neg hover]
    exact id

/-- Event appends preserve pointer validity (in-place heap update). -/
theorem wf_addEvent (cm : Manager) (cid ev : String) (h : WF cm) :
    WF (AddConnectionEvent cm cid ev) := by
  unfold AddConnectionEvent
  cases lookupAssoc cid cm.connections with
  | none => exact h
  | some r =>
    intro p hp
    simpa [List.length_set] using h p hp

/-- Every state reachable by a registration history has valid pointers. -/
theorem wf_runAdds (hist : List AddInput) :
    ∀ cm : Manager, WF cm → WF (runAdds cm hist) := by
  induction hist with
  | nil => exact fun _ h => h
  | cons i hist ih =>
    intro cm h
    exact ih _ (wf_trimStep _ (wf_insertStage cm i.req i.now h))

/-- Appending to the heap does not disturb existing records. -/
theorem refLog_append (heap : List ConnectionLog) (x : ConnectionLog) (r : Nat)
    (h : r < heap.length) : refLog (heap ++ [x]) r = refLog heap r := by
  unfold refLog
  rw [List.getD_eq_getElem?_getD, List.getD_eq_getElem?_getD, List.getElem?_append,
    if_pos h]

/-- **C8, amended.**  What `GetConnectionLogs` returns is the list of
pointers current at call time; a later `AddConnection` — including any
eviction it performs — leaves everything reachable through that snapshot
unchanged (registrations only ever append fresh records to the heap).
The records are shared by reference, however, so a later
`AddConnectionEvent` on a still-registered snapshotted id *is* visible
through the snapshot (see the counterexample theorem). -/
theorem C8_snapshot_unaffected_by_later_registration (max : Nat)
    (hist : List AddInput) (r : Request) (now : Nat) :
    snapshotView ((AddConnection (runAdds (NewManager max) hist) r now).2).heap
        (GetConnectionLogs (runAdds (NewManager max) hist)) =
      snapshotView (runAdds (NewManager max) hist).heap
        (GetConnectionLogs (runAdds (NewManager max) hist)) := by
  have hwf : WF (runAdds (NewManager max) hist) :=
    wf_runAdds hist (NewManager max) (by intro p hp; simp [NewManager] at hp)
  set cm := runAdds (NewManager max) hist with hcm
  have hheap : ((AddConnection cm r now).2).heap =
      cm.heap ++ [{ id := genConnID cm, timestamp := now, remoteAddr := r.remoteAddr,
                    requestHeaders := r.headers, events := [] }] :=
    trimStep_heap _
  rw [hheap]
  unfold snapshotView GetConnectionLogs
  rw [List.map_map, List.map_map]
  apply List.map_congr_left
  intro p hp
  show refLog (cm.heap ++ _) p.2 = refLog cm.heap p.2
  exact refLog_append _ _ _ (hwf p hp)

theorem jsonGo_esc (fuel : Nat) (e : Char) (l : List Char) (d : Char)
    (h : jsonEscDecode (e :: l) = some (d, l)) :
    jsonUnquoteGo (fuel + 1) ('\\' :: e :: l) =
      (jsonUnquoteGo fuel l).map (fun t => d :: t) := by
  show (if ('\\' : Char) = '"' then (if e :: l = [] then some [] else none)
    else if ('\\' : Char) = '\\' then
      match jsonEscDecode (e :: l) with
      | some (d, rest2) => (jsonUnquoteGo fuel rest2).map (fun t => d :: t)
      | none => none
    else if ('\\' : Char).toNat < 0x20 then none
    else (jsonUnquoteGo fuel (e :: l)).map (fun t => '\\' :: t)) =
    (jsonUnquoteGo fuel l).map (fun t => d :: t)
  rw [if_neg (by decide), if_pos rfl, h]

theorem jsonGo_plain (fuel : Nat) (c : Char) (l : List Char) (h1 : ¬ c = '"')
    (h2 : ¬ c = '\\') (h3 : ¬ c.toNat < 0x20) :
    jsonUnquoteGo (fuel + 1) (c :: l) = (jsonUnquoteGo fuel l).map (fun t => c :: t) := by
  show (if c = '"' then (if l = [] then some [] else none)
    else if c = '\\' then
      match jsonEscDecode l with
      | some (d, rest2) => (jsonUnquoteGo fuel rest2).map (fun t => d :: t)
      | none => none
    else if c.toNat < 0x20 then none
    else (jsonUnquoteGo fuel l).map (fun t => c :: t)) =
    (jsonUnquoteGo fuel l).map (fun t => c :: t)
  rw [if_neg h1, if_neg h2, if_neg h3]

theorem jsonGo_close (fuel : Nat) : jsonUnquoteGo (fuel + 1) ['"'] = some [] := rfl

theorem jsonGo_goQuote :
    ∀ (s : List Char) (fuel : Nat), (∀ c ∈ s, goJsonSafe c = true) →
      (s.flatMap goQuoteChar).length + 1 ≤ fuel →
      jsonUnquoteGo fuel (s.flatMap goQuoteChar ++ ['"']) = some s := by
  intro s
  induction s with
  | nil =>
    intro fuel _ hfuel
    obtain ⟨f, rfl⟩ : ∃ f, fuel = f + 1 := ⟨fuel - 1, by omega⟩
    simp only [List.flatMap_nil, List.nil_append]
    exact jsonGo_close f
  | cons c s ih =>
    intro fuel hsafe hfuel
    have hc : goJsonSafe c = true := hsafe c (List.mem_cons_self _ _)
    have hsafe2 : ∀ x ∈ s, goJsonSafe x = true :=
      fun x hx => hsafe x (List.mem_cons_of_mem _ hx)
    rw [List.flatMap_cons] at hfuel ⊢
    by_cases hq : c = '"'
    · subst hq
      have hg : goQuoteChar '"' = ['\\', '"'] := rfl
      rw [hg] at hfuel ⊢
      simp only [List.length_append, List.length_cons] at hfuel
      obtain ⟨f, rfl⟩ : ∃ f, fuel = f + 1 := ⟨fuel - 1, by omega⟩
      have hshape : (['\\', '"'] ++ s.flatMap goQuoteChar) ++ ['"'] =
          '\\' :: '"' :: (s.flatMap goQuoteChar ++ ['"']) := by simp
      rw [hshape, jsonGo_esc f '"' _ '"' rfl, ih f hsafe2 (by omega)]
      rfl
    · by_cases hb : c = '\\'
      · subst hb
        have hg : goQuoteChar '\\' = ['\\', '\\'] := rfl
        rw [hg] at hfuel ⊢
        simp only [List.length_append, List.length_cons] at hfuel
        obtain ⟨f, rfl⟩ : ∃ f, fuel = f + 1 := ⟨fuel - 1, by omega⟩
        have hshape : (['\\', '\\'] ++ s.flatMap goQuoteChar) ++ ['"'] =
            '\\' :: '\\' :: (s.flatMap goQuoteChar ++ ['"']) := by simp
        rw [hshape, jsonGo_esc f '\\' _ '\\' rfl, ih f hsafe2 (by omega)]
        rfl
      · have hcases : (0x20 ≤ c.toNat ∧ c.toNat ≤ 0x7e) ∨
            (c.toNat = 8 ∨ c.toNat = 9 ∨ c.toNat = 10 ∨ c.toNat = 12 ∨ c.toNat = 13) := by
          simp [goJsonSafe] at hc
          tauto
        rcases hcases with hp | hctl
        · -- printable, not quote or backslash
          have hg : goQuoteChar c = [c] := by
            unfold goQuoteChar
            rw [if_neg (by tauto), if_pos hp]
          rw [hg] at hfuel ⊢
          simp only [List.length_append, List.length_cons] at hfuel
          obtain ⟨f, rfl⟩ : ∃ f, fuel = f + 1 := ⟨fuel - 1, by omega⟩
          have hshape : ([c] ++ s.flatMap goQuoteChar) ++ ['"'] =
              c :: (s.flatMap goQuoteChar ++ ['"']) := by simp
          rw [hshape, jsonGo_plain f c _ hq hb (by omega), ih f hsafe2 (by omega)]
          rfl
        · -- named control escapes
          rcases hctl with h8 | h9 | h10 | h12 | h13
          · have hcc : c = Char.ofNat 8 := by rw [← h8, Char.ofNat_toNat]
            subst hcc
            have hg : goQuoteChar (Char.ofNat 8) = ['\\', 'b'] := rfl
            rw [hg] at hfuel ⊢
            simp only [List.length_append, List.length_cons] at hfuel
            obtain ⟨f, rfl⟩ : ∃ f, fuel = f + 1 := ⟨fuel - 1, by omega⟩
            have hshape : (['\\', 'b'] ++ s.flatMap goQuoteChar) ++ ['"'] =
                '\\' :: 'b' :: (s.flatMap goQuoteChar ++ ['"']) := by simp
            rw [hshape, jsonGo_esc f 'b' _ (Char.ofNat 8) rfl, ih f hsafe2 (by omega)]
            rfl
          · have hcc : c = Char.ofNat 9 := by rw [← h9, Char.ofNat_toNat]
            subst hcc
            have hg : goQuoteChar (Char.ofNat 9) = ['\\', 't'] := rfl
            rw [hg] at hfuel ⊢
            simp only [List.length_append, List.length_cons] at hfuel
            obtain ⟨f, rfl⟩ : ∃ f, fuel = f + 1 := ⟨fuel - 1, by omega⟩
            have hshape : (['\\', 't'] ++ s.flatMap goQuoteChar) ++ ['"'] =
                '\\' :: 't' :: (s.flatMap goQuoteChar ++ ['"']) := by simp
            rw [hshape, jsonGo_esc f 't' _ (Char.ofNat 9) rfl, ih f hsafe2 (by omega)]
            rfl
          · have hcc : c = Char.ofNat 10 := by rw [← h10, Char.ofNat_toNat]
            subst hcc
            have hg : goQuoteChar (Char.ofNat 10) = ['\\', 'n'] := rfl
            rw [hg] at hfuel ⊢
            simp only [List.length_append, List.length_cons] at hfuel
            obtain ⟨f, rfl⟩ : ∃ f, fuel = f + 1 := ⟨fuel - 1, by omega⟩
            have hshape : (['\\', 'n'] ++ s.flatMap goQuoteChar) ++ ['"'] =
                '\\' :: 'n' :: (s.flatMap goQuoteChar ++ ['"']) := by simp
            rw [hshape, jsonGo_esc f 'n' _ (Char.ofNat 10) rfl, ih f hsafe2 (by omega)]
            rfl
          · have hcc : c = Char.ofNat 12 := by rw [← h12, Char.ofNat_toNat]
            subst hcc
            have hg : goQuoteChar (Char.ofNat 12) = ['\\', 'f'] := rfl
            rw [hg] at hfuel ⊢
            simp only [List.length_append, List.length_cons] at hfuel
            obtain ⟨f, rfl⟩ : ∃ f, fuel = f + 1 := ⟨fuel - 1, by omega⟩
            have hshape : (['\\', 'f'] ++ s.flatMap goQuoteChar) ++ ['"'] =
                '\\' :: 'f' :: (s.flatMap goQuoteChar ++ ['"']) := by simp
            rw [hshape, jsonGo_esc f 'f' _ (Char.ofNat 12) rfl, ih f hsafe2 (by omega)]
            rfl
          · have hcc : c = Char.ofNat 13 := by rw [← h13, Char.ofNat_toNat]
            subst hcc
            have hg : goQuoteChar (Char.ofNat 13) = ['\\', 'r'] := rfl
            rw [hg] at hfuel ⊢
            simp only [List.length_append, List.length_cons] at hfuel
            obtain ⟨f, rfl⟩ : ∃ f, fuel = f + 1 := ⟨fuel - 1, by omega⟩
            have hshape : (['\\', 'r'] ++ s.flatMap goQuoteChar) ++ ['"'] =
                '\\' :: 'r' :: (s.flatMap goQuoteChar ++ ['"']) := by simp
            rw [hshape, jsonGo_esc f 'r' _ (Char.ofNat 13) rfl, ih f hsafe2 (by omega)]
            rfl

theorem jsonUnquote_goQuote (s : List Char) (hs : ∀ c ∈ s, goJsonSafe c = true) :
    jsonUnquote (goQuote s) = some s := by
  have hshape : goQuote s = '"' :: (s.flatMap goQuoteChar ++ ['"']) := rfl
  rw [hshape]
  show jsonUnquoteGo (s.flatMap goQuoteChar ++ ['"']).length
      (s.flatMap goQuoteChar ++ ['"']) = some s
  exact jsonGo_goQuote s _ hs (by simp)

/-- **C9, counterexample.**  The emitted fields are Go `%q` quotations,
which are not JSON string encodings for every input: a title consisting of
the single byte BEL (7) is emitted as `"\a"`, which the JSON string
grammar rejects, so the written bytes are not a JSON-escaped encoding of
the title. -/
theorem C9_bel_title_not_json_escaped :
    buildSSEMessage { title := String.mk [Char.ofNat 7], url := "u" } "conn_1" =
      "data: \x7b\"title\": \"\\a\", \"url\": \"u\", \"connID\": \"conn_1\"\x7d\n\n".data ∧
    jsonUnquote (goQuote (String.mk [Char.ofNat 7]).data) = none := by
  decide

/-- **C9, amended.**  While a session streams, the bytes written for one
item are exactly `data: {"title": <t>, "url": <u>, "connID": <id>}`
followed by a blank line, with the three fields produced by Go's `%q`
(`strconv.Quote`).  For title and url strings whose characters are
printable ASCII or among backspace, tab, newline, form feed and carriage
return, `%q` coincides with JSON string escaping and the fields decode
back to the original strings; for other control characters (such as BEL or
VT) the emitted field is not valid JSON (see the counterexample). -/
theorem C9_sse_message_shape_and_json_escaping_on_safe_chars
    (t u cid : List Char) (ht : ∀ c ∈ t, goJsonSafe c = true)
    (hu : ∀ c ∈ u, goJsonSafe c = true) :
    buildSSEMessage { title := String.mk t, url := String.mk u } (String.mk cid) =
      "data: \x7b\"title\": ".data ++ goQuote t ++ ", \"url\": ".data ++ goQuote u ++
        ", \"connID\": ".data ++ goQuote cid ++ "\x7d\n\n".data ∧
    jsonUnquote (goQuote t) = some t ∧
    jsonUnquote (goQuote u) = some u :=
  ⟨rfl, jsonUnquote_goQuote t ht, jsonUnquote_goQuote u hu⟩

/-- **C9, witness.** -/
theorem C9_sse_message_shape_and_json_escaping_on_safe_chars_witness :
    (∀ c ∈ "Cat says \"mew\"".data, goJsonSafe c = true) ∧
    (∀ c ∈ "https://x.e/a?b=1".data, goJsonSafe c = true) ∧
    (buildSSEMessage (Meme.mk (String.mk "Cat says \"mew\"".data)
        (String.mk "https://x.e/a?b=1".data)) (String.mk "conn_1".data) =
      "data: \x7b\"title\": ".data ++ goQuote "Cat says \"mew\"".data ++
        ", \"url\": ".data ++ goQuote "https://x.e/a?b=1".data ++
        ", \"connID\": ".data ++ goQuote "conn_1".data ++ "\x7d\n\n".data ∧
    jsonUnquote (goQuote "Cat says \"mew\"".data) = some "Cat says \"mew\"".data ∧
    jsonUnquote (goQuote "https://x.e/a?b=1".data) = some "https://x.e/a?b=1".data) :=
  ⟨by decide, by decide,
    C9_sse_message_shape_and_json_escaping_on_safe_chars "Cat says \"mew\"".data
      "https://x.e/a?b=1".data "conn_1".data (by decide) (by decide)⟩
